import Mathlib

/-!
Shallow embedding of the BLS12-381 wrapper in
`wasm-crypto/src/lib.rs` (crate of the indian-poker repository).

The Rust code is a thin wrapper over the external `blst` library.  The
wrapper logic (hex decoding, length checks, error paths, which `blst`
function is called with which arguments) is embedded directly from the
source.  Calls into `blst` are modelled by the documented mathematical
semantics of the corresponding `blst` functions:

* `blst_fp` values are canonical residues mod the 381-bit base prime
  `P` (the internal Montgomery form is an implementation detail that the
  byte-level conversions `blst_fp_from_bendian` / `blst_bendian_from_fp`
  hide: `from_bendian` reduces the 48-byte big-endian integer mod `P`,
  `bendian_from_fp` emits the canonical reduced value big-endian).
* `blst_p1` / `blst_p2` are Jacobian triples; the zero-initialised
  struct produced by `default()` has `Z = 0` and is the point at
  infinity.  `blst_p1_to_affine` maps a point with `Z = 0` to all-zero
  affine coordinates (the reciprocal of zero is zero in blst).
* `blst_p1_add` implements the incomplete Jacobian `add-2007-bl`
  formulas with conditional selection of the other operand when one
  input has `Z = 0`; the formulas produce the all-zero triple (read as
  infinity) when both operands are equal.  `blst_p1_mult` computes the
  true scalar multiple, interpreting the scalar byte string
  little-endian.  Likewise for `blst_p2`.

Machine integers are `Nat` with explicit `% P` where reduction happens.
-/

set_option maxRecDepth 10000
set_option maxHeartbeats 4000000

/-- The BLS12-381 base-field prime (381 bits). -/
def P : Nat :=
  0x1a0111ea397fe69a4b1ba7b6434bacd764774b84f38512bf6730d2a0f6b0f6241eabfffeb153ffffb9feffffffffaaab

/-- Big-endian byte encoding of `n` on exactly `len` bytes, as written by
`blst_bendian_from_fp` (48 bytes for a field element). -/
def natToBEBytes : Nat → Nat → List Nat
  | 0, _ => []
  | len + 1, n => natToBEBytes len (n / 256) ++ [n % 256]

/-- The unsigned integer denoted by a big-endian byte list (the value read
by `blst_fp_from_bendian` before reduction). -/
def beBytesToNat (bs : List Nat) : Nat :=
  bs.foldl (fun acc b => acc * 256 + b) 0

/-- The unsigned integer denoted by a little-endian byte list: `blst`
scalar arguments (`blst_p1_mult`, `blst_p2_mult`) are little-endian byte
strings. -/
def leBytesToNat : List Nat → Nat
  | [] => 0
  | b :: bs => b + 256 * leBytesToNat bs

/-- Lowercase hex digit for `n < 16`, as produced by Rust `hex::encode`. -/
def hexDigitChar (n : Nat) : Char :=
  if n < 10 then Char.ofNat (48 + n) else Char.ofNat (87 + n)

/-- Value of one hex digit; accepts both cases, as Rust `hex::decode` does. -/
def hexDigitVal (c : Char) : Option Nat :=
  if 48 ≤ c.toNat ∧ c.toNat ≤ 57 then some (c.toNat - 48)
  else if 97 ≤ c.toNat ∧ c.toNat ≤ 102 then some (c.toNat - 87)
  else if 65 ≤ c.toNat ∧ c.toNat ≤ 70 then some (c.toNat - 55)
  else none

/-- Hex encoding of a byte list (Rust `hex::encode`: two lowercase digits
per byte, most significant digit first). -/
def hexEncode : List Nat → List Char
  | [] => []
  | b :: bs => hexDigitChar (b / 16) :: hexDigitChar (b % 16) :: hexEncode bs

/-- Hex decoding (Rust `hex::decode`): fails on odd length or on a
non-hex character, otherwise yields the byte list. -/
def hexDecode : List Char → Option (List Nat)
  | [] => some []
  | [_] => none
  | c1 :: c2 :: cs =>
    match hexDigitVal c1, hexDigitVal c2, hexDecode cs with
    | some hi, some lo, some bs => some ((hi * 16 + lo) :: bs)
    | _, _, _ => none

/-- Fuel-bounded modular exponentiation `b ^ e % m` (square and multiply,
recursing on `e / 2`; the fuel only bounds the recursion depth).  Used to
model the field reciprocal `a ^ (P - 2) % P`, which is the multiplicative
inverse for nonzero `a` and `0` for `a = 0`, exactly the behaviour of the
blst reciprocal routines. -/
def powModAux : Nat → Nat → Nat → Nat → Nat
  | 0, _, _, m => 1 % m
  | fuel + 1, b, e, m =>
    if e = 0 then 1 % m
    else
      let h := powModAux fuel b (e / 2) m
      if e % 2 = 1 then h * h % m * b % m
      else h * h % m

/-- A wrapper field element: `blst_fp` values reachable through this API
are canonical residues mod `P`. -/
abbrev FpElement := { n : Nat // n < P }

/-- The additive identity of the field. -/
def fpZero : FpElement := ⟨0, by decide⟩

/-- The element one. -/
def fpOne : FpElement := ⟨1, by decide⟩

/-- `FpElement::new`: hex-decode the string, require exactly 48 bytes,
then `blst_fp_from_bendian` (reduce the big-endian integer mod `P`). -/
def FpElement.new (s : List Char) : Except String FpElement :=
  match hexDecode s with
  | none => Except.error "Invalid hex string"
  | some bytes =>
    if bytes.length = 48 then
      Except.ok ⟨beBytesToNat bytes % P, Nat.mod_lt _ (by decide)⟩
    else
      Except.error "Field element must be 48 bytes"

/-- `FpElement::add` (`blst_fp_add`). -/
def FpElement.add (a b : FpElement) : FpElement :=
  ⟨(a.val + b.val) % P, Nat.mod_lt _ (by decide)⟩

/-- `FpElement::mul` (`blst_fp_mul`). -/
def FpElement.mul (a b : FpElement) : FpElement :=
  ⟨a.val * b.val % P, Nat.mod_lt _ (by decide)⟩

/-- `FpElement::is_zero`: emit the canonical big-endian byte encoding
(`blst_bendian_from_fp`) and test whether every byte is zero. -/
def FpElement.is_zero (a : FpElement) : Bool :=
  (natToBEBytes 48 a.val).all fun b => b == 0

/-- `FpElement::to_hex`: canonical 48-byte big-endian encoding, hex
encoded. -/
def FpElement.to_hex (a : FpElement) : List Char :=
  hexEncode (natToBEBytes 48 a.val)

/-- `FpElement::inverse`: compute `blst_fp_inverse` (the field reciprocal,
which maps zero to zero), then fail if the operand is the additive
identity, otherwise return the computed reciprocal.  The final `% P` is
the canonical-residue bound; `powModAux` already reduces. -/
def FpElement.inverse (a : FpElement) : Except String FpElement :=
  let result : FpElement := ⟨powModAux 400 a.val (P - 2) P % P, Nat.mod_lt _ (by decide)⟩
  if a.is_zero then Except.error "Cannot invert zero element"
  else Except.ok result

/-- `Fp2Element`: a pair of field elements, mirroring `blst_fp2` whose
`fp` array holds the two components. -/
structure Fp2Element where
  fp0 : FpElement
  fp1 : FpElement
deriving DecidableEq

/-- `Fp2Element::new`: the source initialises the components with
`blst_fp_add(&mut value.fp[0], &c0.value, &c0.value)` and
`blst_fp_add(&mut value.fp[1], &c1.value, &c1.value)` (comment in the
source: "Simple init"), i.e. it stores the double of each argument. -/
def Fp2Element.new (c0 c1 : FpElement) : Fp2Element :=
  ⟨FpElement.add c0 c0, FpElement.add c1 c1⟩

/-- `Fp2Element::c0`: the first stored component. -/
def Fp2Element.c0 (e : Fp2Element) : FpElement := e.fp0

/-- `Fp2Element::c1`: the second stored component. -/
def Fp2Element.c1 (e : Fp2Element) : FpElement := e.fp1

/-- Modular subtraction `(a - b) % P`, valid for `b` of any size. -/
def fpSub (a b : Nat) : Nat := (a + (P - b % P)) % P

/-- A `blst_p1` value: a Jacobian triple over the base field.  `Z = 0`
denotes the point at infinity; the zero-initialised struct produced by
`blst_p1::default()` is therefore infinity. -/
structure BlstP1 where
  x : Nat
  y : Nat
  z : Nat
deriving DecidableEq

/-- `blst_p1::default()`: the zero-initialised struct (the point at
infinity), not the curve generator. -/
def p1Default : BlstP1 := ⟨0, 0, 0⟩

/-- Jacobian doubling, `dbl-2009-l` formulas for `a = 0` (the complete
doubling used inside `blst_p1_mult`). -/
def p1Double (pt : BlstP1) : BlstP1 :=
  let a := pt.x * pt.x % P
  let b := pt.y * pt.y % P
  let c := b * b % P
  let d := 2 * (fpSub (fpSub ((pt.x + b) % P * ((pt.x + b) % P) % P) a) c) % P
  let e := 3 * a % P
  let f := e * e % P
  let x3 := fpSub f (2 * d % P)
  ⟨x3, fpSub (e * (fpSub d x3) % P) (8 * c % P), 2 * pt.y % P * pt.z % P⟩

/-- `blst_p1_add`: incomplete Jacobian `add-2007-bl` formulas, with the
other operand selected when one input has `Z = 0`.  When both operands
are equal the formulas degenerate to the all-zero triple, which reads as
the point at infinity: this function does not handle doubling. -/
def p1Add (p q : BlstP1) : BlstP1 :=
  if p.z = 0 then q
  else if q.z = 0 then p
  else
    let z1z1 := p.z * p.z % P
    let z2z2 := q.z * q.z % P
    let u1 := p.x * z2z2 % P
    let u2 := q.x * z1z1 % P
    let s1 := p.y * q.z % P * z2z2 % P
    let s2 := q.y * p.z % P * z1z1 % P
    let h := fpSub u2 u1
    let i := 2 * h % P * (2 * h % P) % P
    let j := h * i % P
    let r := 2 * (fpSub s2 s1) % P
    let v := u1 * i % P
    let x3 := fpSub (fpSub (r * r % P) j) (2 * v % P)
    let y3 := fpSub (r * (fpSub v x3) % P) (2 * s1 % P * j % P)
    let z3 := fpSub (fpSub ((p.z + q.z) % P * ((p.z + q.z) % P) % P) z1z1) z2z2 * h % P
    ⟨x3, y3, z3⟩

/-- Complete Jacobian addition (the group law, as realised inside
`blst_p1_mult`): handles infinity operands, doubling and inverse
operands by case analysis, falling back to `add-2007-bl` otherwise. -/
def p1Dadd (p q : BlstP1) : BlstP1 :=
  if p.z = 0 then q
  else if q.z = 0 then p
  else
    let z1z1 := p.z * p.z % P
    let z2z2 := q.z * q.z % P
    let u1 := p.x * z2z2 % P
    let u2 := q.x * z1z1 % P
    let s1 := p.y * q.z % P * z2z2 % P
    let s2 := q.y * p.z % P * z1z1 % P
    if u1 = u2 then
      if s1 = s2 then p1Double p else p1Default
    else
      let h := fpSub u2 u1
      let i := 2 * h % P * (2 * h % P) % P
      let j := h * i % P
      let r := 2 * (fpSub s2 s1) % P
      let v := u1 * i % P
      let x3 := fpSub (fpSub (r * r % P) j) (2 * v % P)
      let y3 := fpSub (r * (fpSub v x3) % P) (2 * s1 % P * j % P)
      let z3 := fpSub (fpSub ((p.z + q.z) % P * ((p.z + q.z) % P) % P) z1z1) z2z2 * h % P
      ⟨x3, y3, z3⟩

/-- Fuel-bounded double-and-add: the `n`-fold multiple of a point, as
computed by `blst_p1_mult` ( `[n]pt = 2 * [n / 2]pt + (n % 2) * pt` ).
With fuel at least `log2 n + 1` this is the exact scalar multiple. -/
def natMulP1 : Nat → Nat → BlstP1 → BlstP1
  | 0, _, _ => p1Default
  | fuel + 1, n, pt =>
    if n = 0 then p1Default
    else if n % 2 = 1 then p1Dadd (p1Double (natMulP1 fuel (n / 2) pt)) pt
    else p1Double (natMulP1 fuel (n / 2) pt)

/-- `blst_p1_mult(out, pt, bytes, 256)`: the scalar byte string is
interpreted little-endian (`blst` scalar convention); a 32-byte string
denotes a value below `2 ^ 256`, so fuel 300 is exact. -/
def p1MultLE (pt : BlstP1) (bytes : List Nat) : BlstP1 :=
  natMulP1 300 (leBytesToNat bytes) pt

/-- `blst_p1_to_affine` followed by reading both coordinates: divide by
`Z ^ 2` and `Z ^ 3` using the field reciprocal, which maps `Z = 0` to
zero, so the point at infinity gets all-zero affine coordinates. -/
def affineOfP1 (pt : BlstP1) : Nat × Nat :=
  let w := powModAux 400 (pt.z % P) (P - 2) P
  let w2 := w * w % P
  (pt.x * w2 % P, pt.y * (w2 * w % P) % P)

/-- The standard BLS12-381 G1 generator (the point `blst_p1_generator()`
returns; the source never uses it, but the spec's `random()` is defined
in terms of it). -/
def genP1 : BlstP1 :=
  ⟨0x17f1d3a73197d7942695638c4fa9ac0fc3688c4f9774b905a14e3a3f171bac586c55e83ff97a1aeffb3af00adb22c6bb,
   0x08b3f481e3aaa0f1a09e30ed741d8ae4fcf5e095d5d00af600db18cb2c04b3edd03cc744a2888ae40caa232946c5e7e1,
   1⟩

/-- The wrapper type `G1Point`. -/
structure G1Point where
  point : BlstP1
deriving DecidableEq

/-- `G1Point::identity()`: `blst_p1_add` of two default (infinity)
points. -/
def G1Point.identity : G1Point := ⟨p1Add p1Default p1Default⟩

/-- `G1Point::random()`, parameterised by the 32 bytes drawn from the
entropy source: the source multiplies `blst_p1::default()` (bound to a
variable named `generator`, but actually the zero-initialised infinity
point) by the sampled scalar. -/
def G1Point.random (entropy : List Nat) : G1Point :=
  ⟨p1MultLE p1Default entropy⟩

/-- Modelled from the spec: `random()` as specified samples a scalar and
multiplies the fixed G1 generator by it.  Kept for comparison with the
source's `G1Point.random`. -/
def G1Point.random_spec (entropy : List Nat) : G1Point :=
  ⟨p1MultLE genP1 entropy⟩

/-- `G1Point::add` (`blst_p1_add`). -/
def G1Point.add (a b : G1Point) : G1Point := ⟨p1Add a.point b.point⟩

/-- `G1Point::scalar_mul`: hex-decode the scalar, require exactly 32
bytes, then `blst_p1_mult` with 256 bits. -/
def G1Point.scalar_mul (g : G1Point) (s : List Char) : Except String G1Point :=
  match hexDecode s with
  | none => Except.error "Invalid scalar hex"
  | some bytes =>
    if bytes.length = 32 then Except.ok ⟨p1MultLE g.point bytes⟩
    else Except.error "Scalar must be 32 bytes"

/-- `G1Point::is_infinity`: convert to affine, emit the big-endian bytes
of the affine x-coordinate, and test whether all 48 bytes are zero. -/
def G1Point.is_infinity (g : G1Point) : Bool :=
  (natToBEBytes 48 (affineOfP1 g.point).1).all fun b => b == 0

/-- An `blst_fp2` value: the pair `c0 + c1 * u` with `u ^ 2 = -1`. -/
structure Fp2 where
  c0 : Nat
  c1 : Nat
deriving DecidableEq

/-- The zero of the quadratic extension. -/
def fp2Zero : Fp2 := ⟨0, 0⟩

/-- Addition in the quadratic extension (`blst_fp2_add`). -/
def fp2Add (a b : Fp2) : Fp2 := ⟨(a.c0 + b.c0) % P, (a.c1 + b.c1) % P⟩

/-- Subtraction in the quadratic extension. -/
def fp2SubE (a b : Fp2) : Fp2 := ⟨fpSub a.c0 b.c0, fpSub a.c1 b.c1⟩

/-- Multiplication in the quadratic extension, with `u ^ 2 = -1`. -/
def fp2Mul (a b : Fp2) : Fp2 :=
  ⟨fpSub (a.c0 * b.c0 % P) (a.c1 * b.c1 % P), (a.c0 * b.c1 + a.c1 * b.c0) % P⟩

/-- Scaling by a small natural number. -/
def fp2Smul (k : Nat) (a : Fp2) : Fp2 := ⟨k * a.c0 % P, k * a.c1 % P⟩

/-- Reciprocal in the quadratic extension:
`(a + b * u)⁻¹ = (a - b * u) / (a ^ 2 + b ^ 2)`, computed through the
base-field reciprocal, which maps zero to zero. -/
def fp2Recip (a : Fp2) : Fp2 :=
  let d := powModAux 400 ((a.c0 * a.c0 + a.c1 * a.c1) % P) (P - 2) P
  ⟨a.c0 * d % P, (P - a.c1 * d % P) % P⟩

/-- A `blst_p2` value: a Jacobian triple over the quadratic extension. -/
structure BlstP2 where
  x : Fp2
  y : Fp2
  z : Fp2
deriving DecidableEq

/-- `blst_p2::default()`: the zero-initialised struct (infinity). -/
def p2Default : BlstP2 := ⟨fp2Zero, fp2Zero, fp2Zero⟩

/-- Jacobian doubling over the extension field (`dbl-2009-l`, `a = 0`). -/
def p2Double (pt : BlstP2) : BlstP2 :=
  let a := fp2Mul pt.x pt.x
  let b := fp2Mul pt.y pt.y
  let c := fp2Mul b b
  let d := fp2Smul 2 (fp2SubE (fp2SubE (fp2Mul (fp2Add pt.x b) (fp2Add pt.x b)) a) c)
  let e := fp2Smul 3 a
  let f := fp2Mul e e
  let x3 := fp2SubE f (fp2Smul 2 d)
  ⟨x3, fp2SubE (fp2Mul e (fp2SubE d x3)) (fp2Smul 8 c),
   fp2Mul (fp2Smul 2 pt.y) pt.z⟩

/-- Complete Jacobian addition over the extension field (the group law,
as realised inside `blst_p2_mult`). -/
def p2Dadd (p q : BlstP2) : BlstP2 :=
  if p.z = fp2Zero then q
  else if q.z = fp2Zero then p
  else
    let z1z1 := fp2Mul p.z p.z
    let z2z2 := fp2Mul q.z q.z
    let u1 := fp2Mul p.x z2z2
    let u2 := fp2Mul q.x z1z1
    let s1 := fp2Mul (fp2Mul p.y q.z) z2z2
    let s2 := fp2Mul (fp2Mul q.y p.z) z1z1
    if u1 = u2 then
      if s1 = s2 then p2Double p else p2Default
    else
      let h := fp2SubE u2 u1
      let i := fp2Mul (fp2Smul 2 h) (fp2Smul 2 h)
      let j := fp2Mul h i
      let r := fp2Smul 2 (fp2SubE s2 s1)
      let v := fp2Mul u1 i
      let x3 := fp2SubE (fp2SubE (fp2Mul r r) j) (fp2Smul 2 v)
      let y3 := fp2SubE (fp2Mul r (fp2SubE v x3)) (fp2Mul (fp2Smul 2 s1) j)
      let z3 := fp2Mul (fp2SubE (fp2SubE (fp2Mul (fp2Add p.z q.z) (fp2Add p.z q.z)) z1z1) z2z2) h
      ⟨x3, y3, z3⟩

/-- Fuel-bounded double-and-add over the extension curve. -/
def natMulP2 : Nat → Nat → BlstP2 → BlstP2
  | 0, _, _ => p2Default
  | fuel + 1, n, pt =>
    if n = 0 then p2Default
    else if n % 2 = 1 then p2Dadd (p2Double (natMulP2 fuel (n / 2) pt)) pt
    else p2Double (natMulP2 fuel (n / 2) pt)

/-- `blst_p2_mult(out, pt, bytes, 256)`: little-endian scalar bytes. -/
def p2MultLE (pt : BlstP2) (bytes : List Nat) : BlstP2 :=
  natMulP2 300 (leBytesToNat bytes) pt

/-- `blst_p2_to_affine` followed by reading both coordinates. -/
def affineOfP2 (pt : BlstP2) : Fp2 × Fp2 :=
  let w := fp2Recip pt.z
  let w2 := fp2Mul w w
  (fp2Mul pt.x w2, fp2Mul pt.y (fp2Mul w2 w))

/-- The wrapper type `G2Point`. -/
structure G2Point where
  point : BlstP2
deriving DecidableEq

/-- `G2Point::scalar_mul`: hex-decode the scalar, require exactly 32
bytes, then `blst_p2_mult` with 256 bits. -/
def G2Point.scalar_mul (g : G2Point) (s : List Char) : Except String G2Point :=
  match hexDecode s with
  | none => Except.error "Invalid scalar hex"
  | some bytes =>
    if bytes.length = 32 then Except.ok ⟨p2MultLE g.point bytes⟩
    else Except.error "Scalar must be 32 bytes"

/-- `G2Point::is_infinity`: convert to affine, then test whether the 48
big-endian bytes of the first component (`x.fp[0]`) of the affine
x-coordinate are all zero.  The second component of x and the
y-coordinate are not examined. -/
def G2Point.is_infinity (g : G2Point) : Bool :=
  (natToBEBytes 48 (affineOfP2 g.point).1.c0).all fun b => b == 0

/-- Shape of the JSON object the `pairing` export returns. -/
structure PairingOutput where
  pairing_computed : Bool
  message : String
deriving DecidableEq

/-- `pairing(g1, g2)`: the source converts both points to affine, runs
`blst_miller_loop` and `blst_final_exp` into a local `blst_fp12`, then
discards that value and returns the constant JSON object below.  Only
the returned value is observable; the discarded Fp12 computation has no
effect on it. -/
def pairing (_g1 : G1Point) (_g2 : G2Point) : PairingOutput :=
  ⟨true, "Pairing result computed successfully"⟩

/-- The 96-character hex string of the all-zero 48-byte encoding. -/
def zeros96 : List Char := List.replicate 96 '0'

/-- The 64-character hex string of the 32-byte big-endian encoding of 2. -/
def beTwoHex : List Char := List.replicate 63 '0' ++ ['2']

/-- Entropy bytes encoding the scalar 1 (value 1 in the little-endian
reading `blst` applies). -/
def scalarOneBytes : List Nat := 1 :: List.replicate 31 0

/-- The wrapper `G1Point` holding the standard generator. -/
def genG1 : G1Point := ⟨genP1⟩

theorem P_pos : 0 < P := by decide

theorem P_lt_bound : P < 256 ^ 48 := by decide

theorem natToBEBytes_length (len n : Nat) : (natToBEBytes len n).length = len := by
  induction len generalizing n with
  | zero => rfl
  | succ len ih => simp [natToBEBytes, ih]

theorem natToBEBytes_mem_lt (len n : Nat) : ∀ b ∈ natToBEBytes len n, b < 256 := by
  induction len generalizing n with
  | zero => intro b hb; cases hb
  | succ len ih =>
    intro b hb
    rcases List.mem_append.mp hb with h | h
    · exact ih _ b h
    · rcases List.mem_singleton.mp h with rfl
      exact Nat.mod_lt _ (by decide)

theorem beBytesToNat_append_one (xs : List Nat) (b : Nat) :
    beBytesToNat (xs ++ [b]) = beBytesToNat xs * 256 + b := by
  simp [beBytesToNat, List.foldl_append]

theorem beBytesToNat_natToBEBytes (len n : Nat) (h : n < 256 ^ len) :
    beBytesToNat (natToBEBytes len n) = n := by
  induction len generalizing n with
  | zero =>
    have : n = 0 := Nat.lt_one_iff.mp h
    simp [this, beBytesToNat, natToBEBytes]
  | succ len ih =>
    have hdiv : n / 256 < 256 ^ len := by
      rw [Nat.div_lt_iff_lt_mul (by decide : 0 < 256)]
      calc n < 256 ^ (len + 1) := h
        _ = 256 ^ len * 256 := by rw [Nat.pow_succ]
    rw [natToBEBytes, beBytesToNat_append_one, ih _ hdiv]
    omega

theorem natToBEBytes_all_zero (len n : Nat) (h : n < 256 ^ len) :
    (((natToBEBytes len n).all fun b => b == 0) = true) ↔ n = 0 := by
  induction len generalizing n with
  | zero =>
    have : n = 0 := Nat.lt_one_iff.mp h
    simp [this, natToBEBytes]
  | succ len ih =>
    have hdiv : n / 256 < 256 ^ len := by
      rw [Nat.div_lt_iff_lt_mul (by decide : 0 < 256)]
      calc n < 256 ^ (len + 1) := h
        _ = 256 ^ len * 256 := by rw [Nat.pow_succ]
    rw [natToBEBytes]
    simp only [List.all_append, List.all_cons, List.all_nil, Bool.and_true,
      Bool.and_eq_true, beq_iff_eq]
    rw [ih _ hdiv]
    omega

theorem hexVal_hexChar : ∀ n < 16, hexDigitVal (hexDigitChar n) = some n := by decide

theorem hexDecode_hexEncode (bs : List Nat) (h : ∀ b ∈ bs, b < 256) :
    hexDecode (hexEncode bs) = some bs := by
  induction bs with
  | nil => rfl
  | cons b bs ih =>
    have hb : b < 256 := h b (List.mem_cons_self b bs)
    have h1 : b / 16 < 16 := by omega
    have h2 : b % 16 < 16 := Nat.mod_lt _ (by decide)
    rw [hexEncode, hexDecode, hexVal_hexChar _ h1, hexVal_hexChar _ h2,
      ih fun x hx => h x (List.mem_cons_of_mem b hx)]
    have hdm : b / 16 * 16 + b % 16 = b := by omega
    show some ((b / 16 * 16 + b % 16) :: bs) = some (b :: bs)
    rw [hdm]

theorem fp_is_zero_iff (a : FpElement) : a.is_zero = true ↔ a = fpZero := by
  rw [FpElement.is_zero, natToBEBytes_all_zero 48 a.val (lt_trans a.2 P_lt_bound)]
  exact ⟨fun h => Subtype.ext h, fun h => congrArg Subtype.val h⟩

theorem p1Double_inf : p1Double p1Default = p1Default := by decide

theorem p1Dadd_inf : p1Dadd p1Default p1Default = p1Default := rfl

theorem natMulP1_inf (fuel n : Nat) : natMulP1 fuel n p1Default = p1Default := by
  induction fuel generalizing n with
  | zero => rfl
  | succ fuel ih => simp [natMulP1, ih, p1Double_inf, p1Dadd_inf]

theorem affineOfP2_x_c0_lt (pt : BlstP2) : (affineOfP2 pt).1.c0 < P := by
  show fpSub _ _ < P
  exact Nat.mod_lt _ P_pos

/-- Claim C1: the claim states that `pairing(P, Q)` returns a target-field
element that is a function of P and Q satisfying bilinearity and
non-degeneracy.  In the code the computed Miller-loop/final-exponentiation
value is discarded and the very same constant status object is returned
for every pair of inputs, so the output cannot satisfy non-degeneracy
(it would have to differ between identity and non-identity inputs):
the pairing export returns identical results for all inputs. -/
theorem pairing_result_independent_of_inputs
    (a : G1Point) (b : G2Point) (c : G1Point) (d : G2Point) :
    pairing a b = pairing c d := rfl

/-- Claim C2: the claim states that `G1Point::random()` multiplies the
fixed G1 generator by the sampled scalar and is non-identity whenever the
scalar is not a multiple of the group order.  In the code the point being
multiplied is `blst_p1::default()` — the zero-initialised infinity point —
so the result is the identity for every sampled scalar (first conjunct),
whereas multiplying the actual generator by the scalar 1 (not a multiple
of the order) yields a non-identity point (second conjunct). -/
theorem g1_random_is_always_infinity :
    (∀ entropy : List Nat, G1Point.is_infinity (G1Point.random entropy) = true)
      ∧ G1Point.is_infinity (G1Point.random_spec scalarOneBytes) = false := by
  constructor
  · intro entropy
    show G1Point.is_infinity ⟨natMulP1 300 (leBytesToNat entropy) p1Default⟩ = true
    rw [natMulP1_inf]
    decide
  · decide

/-- Claim C3: the claim states that `Fp2Element::new(c0, c1)` assigns both
components exactly, so that `c0()` returns an element equal to the `c0`
argument.  In the code the constructor stores `c0 + c0` (and `c1 + c1`),
so at `c0 = c1 = 1` the `c0()` accessor returns the element 2, not 1. -/
theorem fp2_new_doubles_components :
    Fp2Element.c0 (Fp2Element.new fpOne fpOne) = FpElement.add fpOne fpOne
      ∧ Fp2Element.c0 (Fp2Element.new fpOne fpOne) ≠ fpOne := by
  exact ⟨rfl, by decide⟩

/-- Claim C4: the claim states that `add(P, P) = scalar_mul(P, s)` for `s`
the 32-byte big-endian encoding of 2.  At `P` the standard G1 generator:
`add(P, P)` lands on the point at infinity (the incomplete `blst_p1_add`
formulas degenerate on equal operands), while `scalar_mul(P, s)` is a
non-infinity point (blst reads the bytes little-endian, computing the
`2 ^ 249`-fold multiple); their affine coordinates differ, and the
`scalar_mul` result also differs from the correct double `[2]P`. -/
theorem g1_add_self_vs_scalar_mul_two_diverge :
    G1Point.is_infinity (G1Point.add genG1 genG1) = true
      ∧ (G1Point.scalar_mul genG1 beTwoHex).toOption.map G1Point.is_infinity = some false
      ∧ (G1Point.scalar_mul genG1 beTwoHex).toOption.map (fun q => affineOfP1 q.point)
          ≠ some (affineOfP1 (G1Point.add genG1 genG1).point)
      ∧ (G1Point.scalar_mul genG1 beTwoHex).toOption.map (fun q => affineOfP1 q.point)
          ≠ some (affineOfP1 (p1Dadd genP1 genP1)) := by
  refine ⟨by decide, by decide, by decide, by decide⟩

/-- Claim C5: `FpElement::inverse(a)` succeeds exactly on the non-zero
field elements: it returns an error if and only if `a` is the additive
identity. -/
theorem fp_inverse_ok_iff_nonzero (a : FpElement) :
    (∃ b, FpElement.inverse a = Except.ok b) ↔ a ≠ fpZero := by
  by_cases h : a.is_zero = true
  · have ha : a = fpZero := (fp_is_zero_iff a).mp h
    have he : FpElement.inverse a = Except.error "Cannot invert zero element" := by
      simp [FpElement.inverse, h]
    refine iff_of_false ?_ fun hne => hne ha
    rintro ⟨b, hb⟩
    rw [he] at hb
    exact Except.noConfusion hb
  · have ha : a ≠ fpZero := fun e => h ((fp_is_zero_iff a).mpr e)
    refine iff_of_true ⟨⟨powModAux 400 a.val (P - 2) P % P, Nat.mod_lt _ P_pos⟩, ?_⟩ ha
    simp [FpElement.inverse, h]

/-- Claim C6: for both groups, `scalar_mul` succeeds exactly when the
scalar hex string decodes to a byte sequence of length exactly 32, and
fails with an error otherwise (wrong length or undecodable hex). -/
theorem scalar_mul_ok_iff_32_bytes :
    (∀ (g : G1Point) (s : List Char),
        (∃ q, G1Point.scalar_mul g s = Except.ok q)
          ↔ ∃ bytes, hexDecode s = some bytes ∧ bytes.length = 32)
      ∧ (∀ (g : G2Point) (s : List Char),
        (∃ q, G2Point.scalar_mul g s = Except.ok q)
          ↔ ∃ bytes, hexDecode s = some bytes ∧ bytes.length = 32) := by
  constructor
  · intro g s
    unfold G1Point.scalar_mul
    cases h : hexDecode s with
    | none => simp [h]
    | some bytes =>
      by_cases hl : bytes.length = 32 <;> simp [h, hl]
  · intro g s
    unfold G2Point.scalar_mul
    cases h : hexDecode s with
    | none => simp [h]
    | some bytes =>
      by_cases hl : bytes.length = 32 <;> simp [h, hl]

/-- Claim C7: reconstructing a field element from its canonical hex
encoding is lossless: `FpElement::new(to_hex(a))` succeeds and returns an
element equal to `a`. -/
theorem fp_new_to_hex_roundtrip (a : FpElement) :
    FpElement.new (FpElement.to_hex a) = Except.ok a := by
  unfold FpElement.new FpElement.to_hex
  rw [hexDecode_hexEncode _ (natToBEBytes_mem_lt 48 a.val)]
  show (if (natToBEBytes 48 a.val).length = 48 then _ else _) = _
  rw [if_pos (natToBEBytes_length 48 a.val)]
  have hv : beBytesToNat (natToBEBytes 48 a.val) % P = a.val := by
    rw [beBytesToNat_natToBEBytes 48 a.val (lt_trans a.2 P_lt_bound)]
    exact Nat.mod_eq_of_lt a.2
  exact congrArg Except.ok (Subtype.ext hv)

/-- Claim C8: decoding the 48-byte all-zero encoding yields the additive
identity, `is_zero` on it returns true, and `inverse` on it fails with
the zero-inverse error. -/
theorem fp_zero_decode_is_zero_and_inverse_fails :
    FpElement.new zeros96 = Except.ok fpZero
      ∧ fpZero.is_zero = true
      ∧ FpElement.inverse fpZero = Except.error "Cannot invert zero element" :=
  ⟨rfl, rfl, rfl⟩

/-- Claim C9: `G2Point::is_infinity` reports a point as the identity
exactly when the first component (`c0`) of its affine x-coordinate is
zero (equivalently, encodes to 48 all-zero bytes); the `c1` component of
x and the y-coordinate play no role in the verdict. -/
theorem g2_is_infinity_iff_affine_x_c0_zero (g : G2Point) :
    G2Point.is_infinity g = true ↔ (affineOfP2 g.point).1.c0 = 0 := by
  unfold G2Point.is_infinity
  exact natToBEBytes_all_zero 48 _ (lt_trans (affineOfP2_x_c0_lt g.point) P_lt_bound)

/-- Claim C10: `FpElement::new` never rejects a 48-byte input on range
grounds: any hex string that decodes to exactly 48 bytes is accepted, and
the constructed element holds the encoded integer reduced mod `P`. -/
theorem fp_new_accepts_all_48_byte_inputs (s : List Char) (bytes : List Nat)
    (h1 : hexDecode s = some bytes) (h2 : bytes.length = 48) :
    ∃ a, FpElement.new s = Except.ok a ∧ a.val = beBytesToNat bytes % P := by
  unfold FpElement.new
  rw [h1]
  show (∃ a, (if bytes.length = 48 then _ else _) = Except.ok a ∧ _)
  rw [if_pos h2]
  exact ⟨_, rfl, rfl⟩

/-- Witness for claim C10: the 96-character hex string of 48 `0xff` bytes
(an integer far above the prime) is accepted and reduced mod `P`. -/
theorem fp_new_accepts_all_48_byte_inputs_w :
    ∃ a, FpElement.new (List.replicate 96 'f') = Except.ok a
      ∧ a.val = beBytesToNat (List.replicate 48 255) % P :=
  fp_new_accepts_all_48_byte_inputs (List.replicate 96 'f') (List.replicate 48 255)
    (by decide) (by decide)
